import Mathlib

/-!
Shallow embedding of the `miniplot` plotting-specification builder
(`src/lib.rs` and `src/conversion.rs`).

Modelling conventions:
* `f64` values that the builder merely stores and moves (series points,
  aspect ratio) are modelled as `ℚ`; the builder performs no floating-point
  arithmetic on them, only index-to-float conversion of small list indices,
  which is exact in `f64`.
* `Color32` is modelled as an RGBA quadruple of naturals.
* The `AsSliceF64` ingestion boundary delivers a flat ordered `List ℚ`;
  matrices are modelled as their list of rows.
* The fluent `self`-consuming methods become functions `MiniPlot → MiniPlot`.
-/

/-- RGBA color, modelling `egui::Color32`. -/
structure Color32 where
  r : Nat
  g : Nat
  b : Nat
  a : Nat
deriving DecidableEq, Repr

/-- `Color32::TRANSPARENT`, the default color of a fresh `PlotData`. -/
def Color32.TRANSPARENT : Color32 := ⟨0, 0, 0, 0⟩

/-- Modelled from the spec: the body of `utils::get_color` (module `utils`
is declared in `src/lib.rs` but its file is not part of the sources).
Per the spec's ColorAllocator contract it is a deterministic, pure function
of a one-based call index, cycling through a fixed ordered palette of at
least 8 distinct entries, wrapping when the palette is exhausted. We model
the minimal faithful palette: 8 distinct entries, period 8. -/
def utils_get_color (index : Nat) : Color32 :=
  match (index - 1) % 8 with
  | 0 => ⟨31, 119, 180, 255⟩
  | 1 => ⟨255, 127, 14, 255⟩
  | 2 => ⟨44, 160, 44, 255⟩
  | 3 => ⟨214, 39, 40, 255⟩
  | 4 => ⟨148, 103, 189, 255⟩
  | 5 => ⟨140, 86, 75, 255⟩
  | 6 => ⟨227, 119, 194, 255⟩
  | _ => ⟨127, 127, 127, 255⟩

/-- One series: `struct PlotData` of `src/lib.rs`. -/
structure PlotData where
  name : String
  points : List (ℚ × ℚ)
  color : Color32
  dashed : Bool
  dotted : Bool
  pointed : Bool
deriving DecidableEq, Repr

/-- `impl Default for PlotData`. -/
def PlotData.default : PlotData :=
  { name := ""
    points := []
    color := Color32.TRANSPARENT
    dashed := false
    dotted := false
    pointed := false }

/-- `struct Options` of `src/lib.rs`. -/
structure Options where
  window_name : String
  legend : Bool
  xlabel : Option String
  ylabel : Option String
  aspect_ratio : Option ℚ
deriving DecidableEq, Repr

/-- `struct MiniPlot` of `src/lib.rs`. -/
structure MiniPlot where
  data : List PlotData
  options : Options
  color_index : Nat
deriving DecidableEq, Repr

/-- `MiniPlot::new`. -/
def MiniPlot.new (window_name : String) : MiniPlot :=
  { data := []
    options :=
      { window_name := window_name
        legend := false
        xlabel := none
        ylabel := none
        aspect_ratio := none }
    color_index := 0 }

/-- `MiniPlot::get_color`: increments the counter, then reads the palette at
the incremented counter; returns the updated state together with the color. -/
def MiniPlot.get_color (self : MiniPlot) : MiniPlot × Color32 :=
  let self := { self with color_index := self.color_index + 1 }
  (self, utils_get_color self.color_index)

/-- `MiniPlot::xlabel`. -/
def MiniPlot.xlabel (self : MiniPlot) (label : String) : MiniPlot :=
  { self with options := { self.options with xlabel := some label } }

/-- `MiniPlot::ylabel`. -/
def MiniPlot.ylabel (self : MiniPlot) (label : String) : MiniPlot :=
  { self with options := { self.options with ylabel := some label } }

/-- The body of the `for i in 0..y.nrows()` loop shared verbatim by
`MiniPlot::matrix_rows` and `MiniPlot::smatrix_rows`: for each row, zip the
shared x slice against the row (Rust's `Iterator::zip` stops at the shorter
side), allocate a fresh color, and push a `PlotData` named after the row
index. `i` carries the current row index. -/
def MiniPlot.matrix_rows_loop (self : MiniPlot) (x : List ℚ)
    (rows : List (List ℚ)) (i : Nat) : MiniPlot :=
  match rows with
  | [] => self
  | row :: rest =>
      let points := x.zip row
      let r := self.get_color
      let s :=
        { r.1 with
          data := r.1.data ++
            [{ PlotData.default with
                name := "Row " ++ toString i
                points := points
                color := r.2 }] }
      MiniPlot.matrix_rows_loop s x rest (i + 1)

/-- `MiniPlot::matrix_rows` (the `DMatrix` version); the matrix is modelled
by its list of rows. -/
def MiniPlot.matrix_rows (self : MiniPlot) (x : List ℚ)
    (y : List (List ℚ)) : MiniPlot :=
  MiniPlot.matrix_rows_loop self x y 0

/-- `MiniPlot::smatrix_rows` (the `SMatrix` version); its Rust body is
textually identical to `matrix_rows` up to the matrix type. -/
def MiniPlot.smatrix_rows (self : MiniPlot) (x : List ℚ)
    (y : List (List ℚ)) : MiniPlot :=
  MiniPlot.matrix_rows_loop self x y 0

/-- `self.data.last_mut()` mutation: apply `f` to the last element when the
list is nonempty, do nothing on the empty list. -/
def modifyLast {α : Type} (l : List α) (f : α → α) : List α :=
  match l with
  | [] => []
  | [a] => [f a]
  | a :: b :: rest => a :: modifyLast (b :: rest) f

/-- `MiniPlot::dashed`. -/
def MiniPlot.dashed (self : MiniPlot) : MiniPlot :=
  { self with data := modifyLast self.data fun last => { last with dashed := true } }

/-- `MiniPlot::dotted`. -/
def MiniPlot.dotted (self : MiniPlot) : MiniPlot :=
  { self with data := modifyLast self.data fun last => { last with dotted := true } }

/-- `MiniPlot::pointed`. -/
def MiniPlot.pointed (self : MiniPlot) : MiniPlot :=
  { self with data := modifyLast self.data fun last => { last with pointed := true } }

/-- `MiniPlot::legend`. -/
def MiniPlot.legend (self : MiniPlot) : MiniPlot :=
  { self with options := { self.options with legend := true } }

/-- `MiniPlot::color`. -/
def MiniPlot.color (self : MiniPlot) (c : Color32) : MiniPlot :=
  { self with data := modifyLast self.data fun last => { last with color := c } }

/-- `MiniPlot::name`. -/
def MiniPlot.name (self : MiniPlot) (n : String) : MiniPlot :=
  { self with data := modifyLast self.data fun last => { last with name := n } }

/-- `line.as_slice_f64().iter().enumerate().map(|(i, &y)| [i as f64, y])`:
pair each value with its index, starting at `i`. -/
def enumPoints (i : Nat) (l : List ℚ) : List (ℚ × ℚ) :=
  match l with
  | [] => []
  | y :: rest => ((i : ℚ), y) :: enumPoints (i + 1) rest

/-- `MiniPlot::plot`. -/
def MiniPlot.plot (self : MiniPlot) (line : List ℚ) : MiniPlot :=
  let points := enumPoints 0 line
  let r := self.get_color
  { r.1 with
    data := r.1.data ++
      [{ PlotData.default with
          name := "Line " ++ toString r.1.data.length
          points := points
          color := r.2 }] }

/-- `MiniPlot::plot_xy`: element-wise zip of the two slices (Rust's
`Iterator::zip` stops at the shorter side). -/
def MiniPlot.plot_xy (self : MiniPlot) (x y : List ℚ) : MiniPlot :=
  let points := x.zip y
  let r := self.get_color
  { r.1 with
    data := r.1.data ++
      [{ PlotData.default with
          name := "Line " ++ toString r.1.data.length
          points := points
          color := r.2 }] }

/-- `MiniPlot::plot_points`. -/
def MiniPlot.plot_points (self : MiniPlot) (pts : List (ℚ × ℚ)) : MiniPlot :=
  let r := self.get_color
  { r.1 with
    data := r.1.data ++
      [{ PlotData.default with
          name := "Line " ++ toString r.1.data.length
          points := pts
          color := r.2 }] }

/-- `MiniPlot::aspect_ratio`: stores the ratio as given, with no validation. -/
def MiniPlot.aspect_ratio (self : MiniPlot) (ratio : ℚ) : MiniPlot :=
  { self with options := { self.options with aspect_ratio := some ratio } }

/-- `MiniPlot::square_aspect_ratio`. -/
def MiniPlot.square_aspect_ratio (self : MiniPlot) : MiniPlot :=
  { self with options := { self.options with aspect_ratio := some 1 } }

/-- The three line styles `show_plot` can select
(`LineStyle::dashed_loose`, `LineStyle::dotted_loose`, `LineStyle::Solid`). -/
inductive RLineStyle where
  | dashed
  | dotted
  | solid
deriving DecidableEq, Repr

/-- One drawing command issued to the rendering surface inside
`Plot::show`'s closure: a styled line, or a set of point markers. -/
inductive DrawCmd where
  | line (name : String) (points : List (ℚ × ℚ)) (color : Color32)
      (style : RLineStyle)
  | markers (name : String) (points : List (ℚ × ℚ)) (color : Color32)
deriving DecidableEq, Repr

/-- `MiniPlot::show_plot`, modelled as the ordered list of drawing commands
issued for the series: for each `PlotData` in order, a line styled
dashed-if-dashed, else dotted-if-dotted, else solid, in the series color;
followed by markers at the same points when `pointed` is set. -/
def MiniPlot.show_plot (self : MiniPlot) : List DrawCmd :=
  self.data.flatMap fun d =>
    DrawCmd.line d.name d.points d.color
      (if d.dashed then RLineStyle.dashed
       else if d.dotted then RLineStyle.dotted
       else RLineStyle.solid)
    :: (if d.pointed then [DrawCmd.markers d.name d.points d.color] else [])

/-- One call of the fluent builder API: `q` is the result of applying a
single public builder method to `p`. -/
inductive Step : MiniPlot → MiniPlot → Prop where
  | xlabel (p : MiniPlot) (l : String) : Step p (p.xlabel l)
  | ylabel (p : MiniPlot) (l : String) : Step p (p.ylabel l)
  | matrix_rows (p : MiniPlot) (x : List ℚ) (y : List (List ℚ)) :
      Step p (p.matrix_rows x y)
  | smatrix_rows (p : MiniPlot) (x : List ℚ) (y : List (List ℚ)) :
      Step p (p.smatrix_rows x y)
  | dashed (p : MiniPlot) : Step p p.dashed
  | dotted (p : MiniPlot) : Step p p.dotted
  | pointed (p : MiniPlot) : Step p p.pointed
  | legend (p : MiniPlot) : Step p p.legend
  | color (p : MiniPlot) (c : Color32) : Step p (p.color c)
  | name (p : MiniPlot) (n : String) : Step p (p.name n)
  | plot (p : MiniPlot) (ys : List ℚ) : Step p (p.plot ys)
  | plot_xy (p : MiniPlot) (x y : List ℚ) : Step p (p.plot_xy x y)
  | plot_points (p : MiniPlot) (pts : List (ℚ × ℚ)) : Step p (p.plot_points pts)
  | aspect_ratio (p : MiniPlot) (r : ℚ) : Step p (p.aspect_ratio r)
  | square_aspect_ratio (p : MiniPlot) : Step p p.square_aspect_ratio

/-- States reachable through the builder's own API from the constructor. -/
inductive Reachable : MiniPlot → Prop where
  | new (w : String) : Reachable (MiniPlot.new w)
  | step (p q : MiniPlot) : Reachable p → Step p q → Reachable q

/-- States reachable through the builder's API when every explicit
`aspect_ratio` call passes a positive ratio. -/
inductive ReachablePos : MiniPlot → Prop where
  | new (w : String) : ReachablePos (MiniPlot.new w)
  | xlabel (p : MiniPlot) (l : String) : ReachablePos p → ReachablePos (p.xlabel l)
  | ylabel (p : MiniPlot) (l : String) : ReachablePos p → ReachablePos (p.ylabel l)
  | matrix_rows (p : MiniPlot) (x : List ℚ) (y : List (List ℚ)) :
      ReachablePos p → ReachablePos (p.matrix_rows x y)
  | smatrix_rows (p : MiniPlot) (x : List ℚ) (y : List (List ℚ)) :
      ReachablePos p → ReachablePos (p.smatrix_rows x y)
  | dashed (p : MiniPlot) : ReachablePos p → ReachablePos p.dashed
  | dotted (p : MiniPlot) : ReachablePos p → ReachablePos p.dotted
  | pointed (p : MiniPlot) : ReachablePos p → ReachablePos p.pointed
  | legend (p : MiniPlot) : ReachablePos p → ReachablePos p.legend
  | color (p : MiniPlot) (c : Color32) : ReachablePos p → ReachablePos (p.color c)
  | name (p : MiniPlot) (n : String) : ReachablePos p → ReachablePos (p.name n)
  | plot (p : MiniPlot) (ys : List ℚ) : ReachablePos p → ReachablePos (p.plot ys)
  | plot_xy (p : MiniPlot) (x y : List ℚ) : ReachablePos p → ReachablePos (p.plot_xy x y)
  | plot_points (p : MiniPlot) (pts : List (ℚ × ℚ)) :
      ReachablePos p → ReachablePos (p.plot_points pts)
  | aspect_ratio (p : MiniPlot) (r : ℚ) (h : 0 < r) :
      ReachablePos p → ReachablePos (p.aspect_ratio r)
  | square_aspect_ratio (p : MiniPlot) : ReachablePos p → ReachablePos p.square_aspect_ratio

/-- Helper: `modifyLast` on a list with an explicit last element rewrites
only that last element. -/
theorem modifyLast_append_last {α : Type} (init : List α) (last : α)
    (f : α → α) : modifyLast (init ++ [last]) f = init ++ [f last] := by
  induction init with
  | nil => rfl
  | cons a t ih =>
      cases t with
      | nil => rfl
      | cons b t2 => simpa [modifyLast] using ih

/-- Helper: `modifyLast` preserves list length. -/
theorem modifyLast_length {α : Type} (l : List α) (f : α → α) :
    (modifyLast l f).length = l.length := by
  induction l with
  | nil => rfl
  | cons a t ih =>
      cases t with
      | nil => rfl
      | cons b t2 => simpa [modifyLast] using ih

/-- Helper: the loop of `matrix_rows` leaves the chart options unchanged,
advances the color counter by the number of rows, and appends one series
per row. -/
theorem matrix_rows_loop_count (x : List ℚ) :
    ∀ (rows : List (List ℚ)) (p : MiniPlot) (i : Nat),
      (MiniPlot.matrix_rows_loop p x rows i).options = p.options ∧
      (MiniPlot.matrix_rows_loop p x rows i).color_index
        = p.color_index + rows.length ∧
      (MiniPlot.matrix_rows_loop p x rows i).data.length
        = p.data.length + rows.length := by
  intro rows
  induction rows with
  | nil => intro p i; simp [MiniPlot.matrix_rows_loop]
  | cons row rest ih =>
      intro p i
      obtain ⟨h1, h2, h3⟩ := ih
        { p with
          color_index := p.color_index + 1
          data := p.data ++
            [{ PlotData.default with
                name := "Row " ++ toString i
                points := x.zip row
                color := utils_get_color (p.color_index + 1) }] } (i + 1)
      refine ⟨?_, ?_, ?_⟩
      · simpa [MiniPlot.matrix_rows_loop, MiniPlot.get_color] using h1
      · simp only [MiniPlot.matrix_rows_loop, MiniPlot.get_color]
        simp at h2 ⊢
        omega
      · simp only [MiniPlot.matrix_rows_loop, MiniPlot.get_color]
        simp at h3 ⊢
        omega

/-- Helper: `enumPoints` preserves length. -/
theorem enumPoints_length : ∀ (l : List ℚ) (i : Nat),
    (enumPoints i l).length = l.length := by
  intro l
  induction l with
  | nil => intro i; rfl
  | cons y rest ih => intro i; simp [enumPoints, ih]

/-- Helper: the `k`-th point produced by `enumPoints i0 l` is
`(i0 + k, l[k])`. -/
theorem enumPoints_getElem (l : List ℚ) : ∀ (i0 k : Nat) (hk : k < l.length),
    (enumPoints i0 l)[k]? = some (((i0 + k : Nat) : ℚ), l[k]) := by
  induction l with
  | nil => intro i0 k hk; simp at hk
  | cons y rest ih =>
      intro i0 k hk
      cases k with
      | zero => simp [enumPoints]
      | succ k2 =>
          have hk2 : k2 < rest.length := by simpa using hk
          have h2 := ih (i0 + 1) k2 hk2
          have hn : i0 + 1 + k2 = i0 + (k2 + 1) := by omega
          rw [hn] at h2
          simpa [enumPoints] using h2

/-- C1: `plot(ys)` appends exactly one `Series` whose points pair each value
with its 0-based index, named `"Line <n>"` with `<n>` the number of series
present at the time of the call, colored with the next allocated color; in
particular `plot([1,4,9])` on a fresh specification yields one series with
points `[(0,1),(1,4),(2,9)]`, color `next_color(1)` and name `"Line 0"`. -/
theorem plot_single_sequence_spec (p : MiniPlot) (ys : List ℚ) :
    ∃ s : PlotData,
      (p.plot ys).data = p.data ++ [s] ∧
      s.points.length = ys.length ∧
      (∀ (k : Nat) (hk : k < ys.length), s.points[k]? = some ((k : ℚ), ys[k])) ∧
      s.name = "Line " ++ toString p.data.length ∧
      s.color = utils_get_color (p.color_index + 1) ∧
      s.dashed = false ∧ s.dotted = false ∧ s.pointed = false ∧
      (p.plot ys).options = p.options ∧
      (p.plot ys).color_index = p.color_index + 1 ∧
      ((MiniPlot.new "w").plot [1, 4, 9]).data.map PlotData.points
        = [[((0 : ℚ), (1 : ℚ)), (1, 4), (2, 9)]] ∧
      ((MiniPlot.new "w").plot [1, 4, 9]).data.map PlotData.color
        = [utils_get_color 1] ∧
      ((MiniPlot.new "w").plot [1, 4, 9]).data.map PlotData.name
        = ["Line 0"] := by
  refine ⟨{ PlotData.default with
      name := "Line " ++ toString p.data.length
      points := enumPoints 0 ys
      color := utils_get_color (p.color_index + 1) },
    rfl, enumPoints_length ys 0, ?_, rfl, rfl, rfl, rfl, rfl, rfl, rfl,
    by decide, by decide, by decide⟩
  intro k hk
  simpa using enumPoints_getElem ys 0 k hk

/-- C1 witness: the theorem instantiated on a fresh specification and
`ys = [1, 4, 9]`, with the pointwise hypotheses discharged at indices
0, 1, 2. -/
theorem plot_single_sequence_spec_witness :
    ∃ s : PlotData,
      ((MiniPlot.new "w").plot [1, 4, 9]).data = [s] ∧
      s.points[0]? = some ((0 : ℚ), (1 : ℚ)) ∧
      s.points[1]? = some ((1 : ℚ), (4 : ℚ)) ∧
      s.points[2]? = some ((2 : ℚ), (9 : ℚ)) ∧
      s.name = "Line 0" ∧
      s.color = utils_get_color 1 := by
  obtain ⟨s, h1, _, h3, h4, h5, _⟩ :=
    plot_single_sequence_spec (MiniPlot.new "w") [1, 4, 9]
  refine ⟨s, by simpa using h1, ?_, ?_, ?_, by simpa using h4, by simpa using h5⟩
  · simpa using h3 0 (by decide)
  · simpa using h3 1 (by decide)
  · simpa using h3 2 (by decide)

/-- C3: `plot_xy(x, y)` appends exactly one `Series` whose points are the
element-wise zip of `x` and `y`, truncated to the shorter length, with no
error; in particular `plot_xy([0,1,2],[5,6])` yields one series with points
`[(0,5),(1,6)]`. -/
theorem plot_xy_spec (p : MiniPlot) (x y : List ℚ) :
    ∃ s : PlotData,
      (p.plot_xy x y).data = p.data ++ [s] ∧
      s.points = x.zip y ∧
      s.points.length = min x.length y.length ∧
      s.name = "Line " ++ toString p.data.length ∧
      s.color = utils_get_color (p.color_index + 1) ∧
      s.dashed = false ∧ s.dotted = false ∧ s.pointed = false ∧
      (p.plot_xy x y).options = p.options ∧
      (p.plot_xy x y).color_index = p.color_index + 1 ∧
      ((MiniPlot.new "w").plot_xy [0, 1, 2] [5, 6]).data.map PlotData.points
        = [[((0 : ℚ), (5 : ℚ)), (1, 6)]] := by
  exact ⟨{ PlotData.default with
      name := "Line " ++ toString p.data.length
      points := x.zip y
      color := utils_get_color (p.color_index + 1) },
    rfl, rfl, List.length_zip x y, rfl, rfl, rfl, rfl, rfl, rfl, rfl,
    by decide⟩

/-- C4: on a specification with at least one series, each last-series
mutator (`dashed`, `dotted`, `pointed`, `color`, `name`) rewrites only the
most recently appended series: every earlier series, the series count and
order, the chart options and the color counter are unchanged. -/
theorem last_series_mutators_target_last_only (p : MiniPlot)
    (init : List PlotData) (last : PlotData) (h : p.data = init ++ [last])
    (c : Color32) (n : String) :
    p.dashed.data = init ++ [{ last with dashed := true }] ∧
    p.dotted.data = init ++ [{ last with dotted := true }] ∧
    p.pointed.data = init ++ [{ last with pointed := true }] ∧
    (p.color c).data = init ++ [{ last with color := c }] ∧
    (p.name n).data = init ++ [{ last with name := n }] ∧
    p.dashed.options = p.options ∧
    p.dotted.options = p.options ∧
    p.pointed.options = p.options ∧
    (p.color c).options = p.options ∧
    (p.name n).options = p.options ∧
    p.dashed.color_index = p.color_index ∧
    p.dotted.color_index = p.color_index ∧
    p.pointed.color_index = p.color_index ∧
    (p.color c).color_index = p.color_index ∧
    (p.name n).color_index = p.color_index := by
  refine ⟨?_, ?_, ?_, ?_, ?_, rfl, rfl, rfl, rfl, rfl, rfl, rfl, rfl, rfl, rfl⟩
  · simpa [MiniPlot.dashed, h] using modifyLast_append_last init last _
  · simpa [MiniPlot.dotted, h] using modifyLast_append_last init last _
  · simpa [MiniPlot.pointed, h] using modifyLast_append_last init last _
  · simpa [MiniPlot.color, h] using modifyLast_append_last init last _
  · simpa [MiniPlot.name, h] using modifyLast_append_last init last _

/-- C4 witness: the theorem applied to a concrete two-series specification,
showing `color` rewrites only the second series. -/
theorem last_series_mutators_witness :
    ((⟨[PlotData.default, { PlotData.default with name := "b" }],
        (MiniPlot.new "w").options, 2⟩ : MiniPlot).color ⟨1, 2, 3, 4⟩).data
      = [PlotData.default,
         { PlotData.default with name := "b", color := ⟨1, 2, 3, 4⟩ }] := by
  have h := last_series_mutators_target_last_only
    (⟨[PlotData.default, { PlotData.default with name := "b" }],
      (MiniPlot.new "w").options, 2⟩ : MiniPlot)
    [PlotData.default] { PlotData.default with name := "b" } rfl
    ⟨1, 2, 3, 4⟩ "n"
  simpa using h.2.2.2.1

/-- C5: on a specification with no series, every last-series mutator is a
no-op: it returns the specification unchanged and the series count stays 0. -/
theorem mutators_noop_on_empty (p : MiniPlot) (h : p.data = [])
    (c : Color32) (n : String) :
    p.dashed = p ∧ p.dotted = p ∧ p.pointed = p ∧
    p.color c = p ∧ p.name n = p ∧
    p.dashed.data.length = 0 ∧ p.dotted.data.length = 0 ∧
    p.pointed.data.length = 0 ∧ (p.color c).data.length = 0 ∧
    (p.name n).data.length = 0 := by
  obtain ⟨d, o, ci⟩ := p
  simp only [MiniPlot.mk.injEq] at h ⊢
  subst h
  simp [MiniPlot.dashed, MiniPlot.dotted, MiniPlot.pointed, MiniPlot.color,
    MiniPlot.name, modifyLast]

/-- C5 witness: the theorem applied to the fresh specification. -/
theorem mutators_noop_on_empty_witness :
    (MiniPlot.new "w").dashed = MiniPlot.new "w" ∧
    (MiniPlot.new "w").name "x" = MiniPlot.new "w" ∧
    ((MiniPlot.new "w").color ⟨1, 2, 3, 4⟩).data.length = 0 := by
  have h := mutators_noop_on_empty (MiniPlot.new "w") rfl ⟨1, 2, 3, 4⟩ "x"
  exact ⟨h.1, h.2.2.2.2.1, h.2.2.2.2.2.2.2.2.1⟩

/-- C6: the color allocator is a pure function of its one-based call index,
periodic with period 8 (≥ 8); the specification's counter is advanced
before each use, so the first appended series receives `next_color(1)`. -/
theorem color_allocator_pure_periodic :
    (∀ k : Nat, utils_get_color k = utils_get_color k) ∧
    (∃ P : Nat, 8 ≤ P ∧ ∀ k : Nat, 0 < k →
        utils_get_color (k + P) = utils_get_color k) ∧
    (∀ p : MiniPlot,
        p.get_color
          = ({ p with color_index := p.color_index + 1 },
             utils_get_color (p.color_index + 1))) ∧
    (∀ (w : String) (ys : List ℚ),
        ((MiniPlot.new w).plot ys).data.map PlotData.color
          = [utils_get_color 1]) := by
  refine ⟨fun k => rfl, ⟨8, le_refl 8, ?_⟩, fun p => rfl, fun w ys => rfl⟩
  intro k hk
  have hn : k + 8 - 1 = (k - 1) + 8 := by omega
  simp only [utils_get_color, hn, Nat.add_mod_right]

/-- C6 witness: the periodicity hypothesis discharged at `k = 1`, and the
allocator evaluated concretely. -/
theorem color_allocator_witness :
    (∃ P : Nat, 8 ≤ P ∧ utils_get_color (1 + P) = utils_get_color 1) ∧
    ((MiniPlot.new "w").plot [(3 : ℚ)]).data.map PlotData.color
      = [utils_get_color 1] := by
  obtain ⟨-, ⟨P, hP, hper⟩, -, hfirst⟩ := color_allocator_pure_periodic
  exact ⟨⟨P, hP, hper 1 (by decide)⟩, hfirst "w" [(3 : ℚ)]⟩

/-- C7: at finalization, every series in the specification is drawn as a
line styled dashed when its dashed flag is set, else dotted when its dotted
flag is set, else solid (dashed takes precedence over dotted), in the
series's own color; markers at the series's coordinates are issued exactly
for the series whose pointed flag is set, again in the series's color. -/
theorem show_plot_style_spec (p : MiniPlot) :
    (∀ d : PlotData, d ∈ p.data →
        DrawCmd.line d.name d.points d.color
          (if d.dashed then RLineStyle.dashed
           else if d.dotted then RLineStyle.dotted
           else RLineStyle.solid) ∈ p.show_plot ∧
        (d.pointed = true →
          DrawCmd.markers d.name d.points d.color ∈ p.show_plot)) ∧
    (∀ (nm : String) (pts : List (ℚ × ℚ)) (c : Color32),
        DrawCmd.markers nm pts c ∈ p.show_plot →
        ∃ d : PlotData, d ∈ p.data ∧ d.pointed = true ∧ d.name = nm ∧
          d.points = pts ∧ d.color = c) ∧
    (∀ (nm : String) (pts : List (ℚ × ℚ)) (c : Color32) (st : RLineStyle),
        DrawCmd.line nm pts c st ∈ p.show_plot →
        ∃ d : PlotData, d ∈ p.data ∧ d.name = nm ∧ d.points = pts ∧
          d.color = c ∧
          st = (if d.dashed then RLineStyle.dashed
                else if d.dotted then RLineStyle.dotted
                else RLineStyle.solid)) := by
  refine ⟨?_, ?_, ?_⟩
  · intro d hd
    constructor
    · exact List.mem_flatMap.mpr ⟨d, hd, List.mem_cons_self _ _⟩
    · intro hp
      refine List.mem_flatMap.mpr ⟨d, hd, List.mem_cons.mpr (Or.inr ?_)⟩
      simp [hp]
  · intro nm pts c hm
    obtain ⟨d, hd, hcmd⟩ := List.mem_flatMap.mp hm
    rcases List.mem_cons.mp hcmd with h | h
    · exact absurd h (by simp)
    · by_cases hp : d.pointed
      · rw [if_pos hp] at h
        have h4 := List.mem_singleton.mp h
        obtain ⟨h1, h2, h3⟩ : d.name = nm ∧ d.points = pts ∧ d.color = c := by
          simpa using h4.symm
        exact ⟨d, hd, hp, h1, h2, h3⟩
      · rw [if_neg hp] at h
        exact absurd h (List.not_mem_nil _)
  · intro nm pts c st hm
    obtain ⟨d, hd, hcmd⟩ := List.mem_flatMap.mp hm
    rcases List.mem_cons.mp hcmd with h | h
    · obtain ⟨h1, h2, h3, h4⟩ :
          d.name = nm ∧ d.points = pts ∧ d.color = c ∧
            (if d.dashed then RLineStyle.dashed
             else if d.dotted then RLineStyle.dotted
             else RLineStyle.solid) = st := by
        simpa using h.symm
      exact ⟨d, hd, h1, h2, h3, h4.symm⟩
    · by_cases hp : d.pointed
      · rw [if_pos hp] at h
        have h4 := List.mem_singleton.mp h
        exact absurd h4 (by simp)
      · rw [if_neg hp] at h
        exact absurd h (List.not_mem_nil _)

/-- C7 witness: the theorem applied to a one-series specification whose
series is dashed, dotted and pointed at once: the drawn line is dashed
(precedence) and markers are issued. -/
theorem show_plot_style_witness :
    DrawCmd.line "d" [((0 : ℚ), (0 : ℚ))] ⟨9, 9, 9, 9⟩ RLineStyle.dashed
      ∈ (⟨[{ name := "d", points := [((0 : ℚ), (0 : ℚ))], color := ⟨9, 9, 9, 9⟩,
             dashed := true, dotted := true, pointed := true }],
          (MiniPlot.new "w").options, 1⟩ : MiniPlot).show_plot ∧
    DrawCmd.markers "d" [((0 : ℚ), (0 : ℚ))] ⟨9, 9, 9, 9⟩
      ∈ (⟨[{ name := "d", points := [((0 : ℚ), (0 : ℚ))], color := ⟨9, 9, 9, 9⟩,
             dashed := true, dotted := true, pointed := true }],
          (MiniPlot.new "w").options, 1⟩ : MiniPlot).show_plot := by
  have h := (show_plot_style_spec
    (⟨[{ name := "d", points := [((0 : ℚ), (0 : ℚ))], color := ⟨9, 9, 9, 9⟩,
         dashed := true, dotted := true, pointed := true }],
      (MiniPlot.new "w").options, 1⟩ : MiniPlot)).1
    { name := "d", points := [((0 : ℚ), (0 : ℚ))], color := ⟨9, 9, 9, 9⟩,
      dashed := true, dotted := true, pointed := true }
    (List.mem_cons_self _ _)
  exact ⟨by simpa using h.1, h.2 rfl⟩

/-- C8: `legend()` sets the legend flag to true, and every single builder
operation preserves a true legend flag: no builder call ever resets it. -/
theorem legend_monotone :
    (∀ p : MiniPlot, p.legend.options.legend = true) ∧
    (∀ p q : MiniPlot, Step p q → p.options.legend = true →
        q.options.legend = true) := by
  refine ⟨fun p => rfl, ?_⟩
  intro p q hs hl
  cases hs with
  | xlabel l => exact hl
  | ylabel l => exact hl
  | matrix_rows x y =>
      rw [show (p.matrix_rows x y).options = p.options from
        (matrix_rows_loop_count x y p 0).1]
      exact hl
  | smatrix_rows x y =>
      rw [show (p.smatrix_rows x y).options = p.options from
        (matrix_rows_loop_count x y p 0).1]
      exact hl
  | dashed => exact hl
  | dotted => exact hl
  | pointed => exact hl
  | legend => rfl
  | color c => exact hl
  | name n => exact hl
  | plot ys => exact hl
  | plot_xy x y => exact hl
  | plot_points pts => exact hl
  | aspect_ratio r => exact hl
  | square_aspect_ratio => exact hl

/-- C8 witness: the theorem applied across a concrete step (an `xlabel`
call after enabling the legend). -/
theorem legend_monotone_witness :
    (((MiniPlot.new "w").legend).xlabel "x").options.legend = true :=
  legend_monotone.2 ((MiniPlot.new "w").legend)
    (((MiniPlot.new "w").legend).xlabel "x")
    (Step.xlabel _ "x") (legend_monotone.1 (MiniPlot.new "w"))

/-- C9 counterexample: `aspect_ratio(-1)` is a builder call reachable from
the constructor and stores the non-positive ratio `-1` unvalidated, so a
builder-reachable state with a set but non-positive aspect ratio exists. -/
theorem aspect_ratio_counterexample :
    Reachable ((MiniPlot.new "w").aspect_ratio (-1)) ∧
    ((MiniPlot.new "w").aspect_ratio (-1)).options.aspect_ratio
      = some (-1) ∧
    ¬ (0 < (-1 : ℚ)) :=
  ⟨Reachable.step _ _ (Reachable.new "w")
      (Step.aspect_ratio (MiniPlot.new "w") (-1)),
   rfl, by norm_num⟩

/-- C9 amended: the builder itself never validates the ratio; whenever every
explicit `aspect_ratio` call passes a positive ratio, every reachable state
has the aspect-ratio field absent or positive (so the invariant holds
exactly for caller-positive sequences, not unconditionally). -/
theorem aspect_ratio_invariant_pos (p : MiniPlot) (h : ReachablePos p) :
    p.options.aspect_ratio = none ∨
    ∃ r : ℚ, p.options.aspect_ratio = some r ∧ 0 < r := by
  induction h with
  | new w => exact Or.inl rfl
  | xlabel p l _ ih => exact ih
  | ylabel p l _ ih => exact ih
  | matrix_rows p x y _ ih =>
      rw [show (p.matrix_rows x y).options = p.options from
        (matrix_rows_loop_count x y p 0).1]
      exact ih
  | smatrix_rows p x y _ ih =>
      rw [show (p.smatrix_rows x y).options = p.options from
        (matrix_rows_loop_count x y p 0).1]
      exact ih
  | dashed p _ ih => exact ih
  | dotted p _ ih => exact ih
  | pointed p _ ih => exact ih
  | legend p _ ih => exact ih
  | color p c _ ih => exact ih
  | name p n _ ih => exact ih
  | plot p ys _ ih => exact ih
  | plot_xy p x y _ ih => exact ih
  | plot_points p pts _ ih => exact ih
  | aspect_ratio p r hr _ _ => exact Or.inr ⟨r, rfl, hr⟩
  | square_aspect_ratio p _ _ => exact Or.inr ⟨1, rfl, by norm_num⟩

/-- C9 witness: the amended invariant evaluated on a concrete positively
built state. -/
theorem aspect_ratio_invariant_witness :
    ((MiniPlot.new "w").aspect_ratio 2).options.aspect_ratio = none ∨
    ∃ r : ℚ, ((MiniPlot.new "w").aspect_ratio 2).options.aspect_ratio
      = some r ∧ 0 < r :=
  aspect_ratio_invariant_pos ((MiniPlot.new "w").aspect_ratio 2)
    (ReachablePos.aspect_ratio (MiniPlot.new "w") 2 (by norm_num)
      (ReachablePos.new "w"))

/-- C10: on every builder-reachable state the private color counter equals
the number of series appended so far; both start at 0; each single-series
ingestion advances the counter by 1 and appends 1 series; matrix-rows
ingestion of an R-row matrix advances it by R and appends R series;
last-series and chart-level mutators change neither; consequently the
series appended by `plot` on a reachable state receives the default color
of allocator index `series count + 1`. -/
theorem color_index_eq_series_count :
    (∀ w : String,
        (MiniPlot.new w).color_index = 0 ∧ (MiniPlot.new w).data.length = 0) ∧
    (∀ (p : MiniPlot) (ys : List ℚ),
        (p.plot ys).color_index = p.color_index + 1 ∧
        (p.plot ys).data.length = p.data.length + 1) ∧
    (∀ (p : MiniPlot) (x y : List ℚ),
        (p.plot_xy x y).color_index = p.color_index + 1 ∧
        (p.plot_xy x y).data.length = p.data.length + 1) ∧
    (∀ (p : MiniPlot) (pts : List (ℚ × ℚ)),
        (p.plot_points pts).color_index = p.color_index + 1 ∧
        (p.plot_points pts).data.length = p.data.length + 1) ∧
    (∀ (p : MiniPlot) (x : List ℚ) (y : List (List ℚ)),
        (p.matrix_rows x y).color_index = p.color_index + y.length ∧
        (p.matrix_rows x y).data.length = p.data.length + y.length ∧
        (p.smatrix_rows x y).color_index = p.color_index + y.length ∧
        (p.smatrix_rows x y).data.length = p.data.length + y.length) ∧
    (∀ p : MiniPlot,
        p.dashed.color_index = p.color_index ∧
        p.dashed.data.length = p.data.length ∧
        p.dotted.color_index = p.color_index ∧
        p.dotted.data.length = p.data.length ∧
        p.pointed.color_index = p.color_index ∧
        p.pointed.data.length = p.data.length ∧
        p.legend.color_index = p.color_index ∧
        p.legend.data.length = p.data.length) ∧
    (∀ (p : MiniPlot) (c : Color32) (n : String),
        (p.color c).color_index = p.color_index ∧
        (p.color c).data.length = p.data.length ∧
        (p.name n).color_index = p.color_index ∧
        (p.name n).data.length = p.data.length) ∧
    (∀ p : MiniPlot, Reachable p → p.color_index = p.data.length) ∧
    (∀ (p : MiniPlot) (ys : List ℚ), Reachable p →
        ((p.plot ys).data.getLast?).map PlotData.color
          = some (utils_get_color (p.data.length + 1))) := by
  have hcount : ∀ p : MiniPlot, Reachable p → p.color_index = p.data.length := by
    intro p h
    induction h with
    | new w => rfl
    | step p q hp hs ih =>
        cases hs with
        | xlabel l => exact ih
        | ylabel l => exact ih
        | matrix_rows x y =>
            obtain ⟨-, h2, h3⟩ := matrix_rows_loop_count x y p 0
            rw [show (p.matrix_rows x y).color_index
                = p.color_index + y.length from h2,
              show (p.matrix_rows x y).data.length
                = p.data.length + y.length from h3, ih]
        | smatrix_rows x y =>
            obtain ⟨-, h2, h3⟩ := matrix_rows_loop_count x y p 0
            rw [show (p.smatrix_rows x y).color_index
                = p.color_index + y.length from h2,
              show (p.smatrix_rows x y).data.length
                = p.data.length + y.length from h3, ih]
        | dashed => simpa [MiniPlot.dashed, modifyLast_length] using ih
        | dotted => simpa [MiniPlot.dotted, modifyLast_length] using ih
        | pointed => simpa [MiniPlot.pointed, modifyLast_length] using ih
        | legend => exact ih
        | color c => simpa [MiniPlot.color, modifyLast_length] using ih
        | name n => simpa [MiniPlot.name, modifyLast_length] using ih
        | plot ys => simpa [MiniPlot.plot, MiniPlot.get_color] using ih
        | plot_xy x y => simpa [MiniPlot.plot_xy, MiniPlot.get_color] using ih
        | plot_points pts =>
            simpa [MiniPlot.plot_points, MiniPlot.get_color] using ih
        | aspect_ratio r => exact ih
        | square_aspect_ratio => exact ih
  refine ⟨fun w => ⟨rfl, rfl⟩,
    fun p ys => ⟨rfl, by simp [MiniPlot.plot, MiniPlot.get_color]⟩,
    fun p x y => ⟨rfl, by simp [MiniPlot.plot_xy, MiniPlot.get_color]⟩,
    fun p pts => ⟨rfl, by simp [MiniPlot.plot_points, MiniPlot.get_color]⟩,
    fun p x y => ?_, fun p => ?_, fun p c n => ?_, hcount, ?_⟩
  · obtain ⟨-, h2, h3⟩ := matrix_rows_loop_count x y p 0
    exact ⟨h2, h3, h2, h3⟩
  · simp [MiniPlot.dashed, MiniPlot.dotted, MiniPlot.pointed, MiniPlot.legend,
      modifyLast_length]
  · simp [MiniPlot.color, MiniPlot.name, modifyLast_length]
  · intro p ys hp
    have hinv := hcount p hp
    simp [MiniPlot.plot, MiniPlot.get_color, hinv]

/-- C10 witness: the invariant applied to the concrete reachable state
built by one `plot` call, and the color of the series it appends. -/
theorem color_index_eq_series_count_witness :
    ((MiniPlot.new "w").plot [(1 : ℚ)]).color_index
      = ((MiniPlot.new "w").plot [(1 : ℚ)]).data.length ∧
    (((MiniPlot.new "w").plot [(1 : ℚ)]).data.getLast?).map PlotData.color
      = some (utils_get_color 1) := by
  have h1 := color_index_eq_series_count.2.2.2.2.2.2.2.1
    ((MiniPlot.new "w").plot [(1 : ℚ)])
    (Reachable.step _ _ (Reachable.new "w")
      (Step.plot (MiniPlot.new "w") [(1 : ℚ)]))
  have h2 := color_index_eq_series_count.2.2.2.2.2.2.2.2
    (MiniPlot.new "w") [(1 : ℚ)] (Reachable.new "w")
  exact ⟨h1, h2⟩

/-- The series appended by the matrix-rows loop, as a function of the shared
x slice, the color counter `c0` and the row index `i0` at loop entry. -/
def buildRowSeries (x : List ℚ) : Nat → Nat → List (List ℚ) → List PlotData
  | _, _, [] => []
  | c0, i0, row :: rest =>
      { PlotData.default with
          name := "Row " ++ toString i0
          points := x.zip row
          color := utils_get_color (c0 + 1) }
        :: buildRowSeries x (c0 + 1) (i0 + 1) rest

/-- Helper: the matrix-rows loop appends exactly `buildRowSeries`. -/
theorem matrix_rows_loop_data (x : List ℚ) :
    ∀ (rows : List (List ℚ)) (p : MiniPlot) (i : Nat),
      (MiniPlot.matrix_rows_loop p x rows i).data
        = p.data ++ buildRowSeries x p.color_index i rows := by
  intro rows
  induction rows with
  | nil => intro p i; simp [MiniPlot.matrix_rows_loop, buildRowSeries]
  | cons row rest ih =>
      intro p i
      have h := ih
        { p with
          color_index := p.color_index + 1
          data := p.data ++
            [{ PlotData.default with
                name := "Row " ++ toString i
                points := x.zip row
                color := utils_get_color (p.color_index + 1) }] } (i + 1)
      simp only [MiniPlot.matrix_rows_loop, MiniPlot.get_color]
      simp at h
      simp [h, buildRowSeries]

/-- Helper: `buildRowSeries` yields one series per row. -/
theorem buildRowSeries_length (x : List ℚ) :
    ∀ (rows : List (List ℚ)) (c0 i0 : Nat),
      (buildRowSeries x c0 i0 rows).length = rows.length := by
  intro rows
  induction rows with
  | nil => intro c0 i0; rfl
  | cons row rest ih => intro c0 i0; simp [buildRowSeries, ih]

/-- Helper: the `k`-th series built from the rows is named after row index
`i0 + k`, zips `x` against row `k`, and is colored with allocator index
`c0 + k + 1`. -/
theorem buildRowSeries_getElem (x : List ℚ) :
    ∀ (rows : List (List ℚ)) (c0 i0 k : Nat) (hk : k < rows.length),
      (buildRowSeries x c0 i0 rows)[k]?
        = some { PlotData.default with
            name := "Row " ++ toString (i0 + k)
            points := x.zip rows[k]
            color := utils_get_color (c0 + k + 1) } := by
  intro rows
  induction rows with
  | nil => intro c0 i0 k hk; simp at hk
  | cons row rest ih =>
      intro c0 i0 k hk
      cases k with
      | zero => simp [buildRowSeries]
      | succ k2 =>
          have hk2 : k2 < rest.length := by simpa using hk
          have h := ih (c0 + 1) (i0 + 1) k2 hk2
          have hn1 : i0 + 1 + k2 = i0 + (k2 + 1) := by omega
          have hn2 : c0 + 1 + k2 + 1 = c0 + (k2 + 1) + 1 := by omega
          rw [hn1, hn2] at h
          simpa [buildRowSeries] using h

/-- Helper: the color of index `a ≥ 1` depends only on `(a - 1) % 8`. -/
theorem utils_get_color_mod (a : Nat) :
    utils_get_color a = utils_get_color ((a - 1) % 8 + 1) := by
  have h : ((a - 1) % 8 + 1 - 1) % 8 = (a - 1) % 8 := by omega
  simp only [utils_get_color, h]

/-- Helper: the 8 palette entries are pairwise distinct. -/
theorem utils_get_color_inj :
    ∀ m : Nat, m < 8 → ∀ n : Nat, n < 8 →
      utils_get_color (m + 1) = utils_get_color (n + 1) → m = n := by
  decide

/-- C2 counterexample: matrix-rows ingestion of a 9-row matrix on a fresh
specification appends 9 series, but rows 0 and 8 receive the same allocator
color (the palette cycles with period 8), so the 9 freshly allocated colors
are not pairwise distinct as the claim states. -/
theorem matrix_rows_distinct_colors_counterexample :
    (((MiniPlot.new "w").matrix_rows [(0 : ℚ)]
        [[(0 : ℚ)], [0], [0], [0], [0], [0], [0], [0], [0]]).data.length
      = 9) ∧
    ((((MiniPlot.new "w").matrix_rows [(0 : ℚ)]
        [[(0 : ℚ)], [0], [0], [0], [0], [0], [0], [0], [0]]).data.map
          PlotData.color)[0]? = some (utils_get_color 1)) ∧
    ((((MiniPlot.new "w").matrix_rows [(0 : ℚ)]
        [[(0 : ℚ)], [0], [0], [0], [0], [0], [0], [0], [0]]).data.map
          PlotData.color)[8]? = some (utils_get_color 1)) := by
  decide

/-- C2 amended: matrix-rows ingestion of an x-sequence of length L and an
R-by-C matrix appends exactly R series in row order (`smatrix_rows`
behaving identically), series `k` zipping the shared x-sequence against row
`k`, of length min(C, L), named `"Row k"` after the row index, colored with
the freshly allocated color of allocator index `counter + k + 1`; the R
consecutive allocator colors are pairwise distinct whenever R does not
exceed the palette period 8 (for R > 8 the cycling palette repeats). -/
theorem matrix_rows_spec (p : MiniPlot) (x : List ℚ) (y : List (List ℚ))
    (C : Nat) (hC : ∀ row ∈ y, row.length = C) :
    p.smatrix_rows x y = p.matrix_rows x y ∧
    ∃ news : List PlotData,
      (p.matrix_rows x y).data = p.data ++ news ∧
      news.length = y.length ∧
      (∀ (k : Nat) (hk : k < y.length),
        news[k]? = some
          { PlotData.default with
              name := "Row " ++ toString k
              points := x.zip y[k]
              color := utils_get_color (p.color_index + k + 1) }) ∧
      (∀ (k : Nat) (hk : k < y.length),
        (x.zip y[k]).length = min C x.length) ∧
      (y.length ≤ 8 →
        ∀ (j k : Nat) (hj : j < y.length) (hk : k < y.length), j ≠ k →
          ∀ dj dk : PlotData, news[j]? = some dj → news[k]? = some dk →
            dj.color ≠ dk.color) := by
  refine ⟨rfl, buildRowSeries x p.color_index 0 y,
    matrix_rows_loop_data x y p 0,
    buildRowSeries_length x y p.color_index 0, ?_, ?_, ?_⟩
  · intro k hk
    simpa using buildRowSeries_getElem x y p.color_index 0 k hk
  · intro k hk
    have hmem : y[k] ∈ y := List.getElem_mem hk
    rw [List.length_zip, hC y[k] hmem]
    exact Nat.min_comm x.length C
  · intro h8 j k hj hk hne dj dk hdj hdk heq
    rw [buildRowSeries_getElem x y p.color_index 0 j hj] at hdj
    rw [buildRowSeries_getElem x y p.color_index 0 k hk] at hdk
    have hdj2 := Option.some.inj hdj
    have hdk2 := Option.some.inj hdk
    have hcj : dj.color = utils_get_color (p.color_index + j + 1) := by
      rw [← hdj2]
    have hck : dk.color = utils_get_color (p.color_index + k + 1) := by
      rw [← hdk2]
    rw [hcj, hck] at heq
    rw [utils_get_color_mod (p.color_index + j + 1),
      utils_get_color_mod (p.color_index + k + 1)] at heq
    have hj8 : (p.color_index + j + 1 - 1) % 8 < 8 := by omega
    have hk8 : (p.color_index + k + 1 - 1) % 8 < 8 := by omega
    have := utils_get_color_inj _ hj8 _ hk8 heq
    omega

/-- C2 witness: the amended theorem instantiated on a fresh specification
with `x = [0,1,2]` and the 2×3 matrix `[[1,2,3],[4,5,6]]`, reproducing the
spec's scenario: two series `"Row 0"` and `"Row 1"` with the zipped points,
consecutive allocator colors 1 and 2, which are distinct. -/
theorem matrix_rows_spec_witness :
    ∃ news : List PlotData,
      ((MiniPlot.new "w").matrix_rows [(0 : ℚ), 1, 2]
          [[(1 : ℚ), 2, 3], [4, 5, 6]]).data
        = (MiniPlot.new "w").data ++ news ∧
      news.length = 2 ∧
      news[0]? = some
        { PlotData.default with
            name := "Row 0"
            points := [((0 : ℚ), (1 : ℚ)), (1, 2), (2, 3)]
            color := utils_get_color 1 } ∧
      news[1]? = some
        { PlotData.default with
            name := "Row 1"
            points := [((0 : ℚ), (4 : ℚ)), (1, 5), (2, 6)]
            color := utils_get_color 2 } ∧
      utils_get_color 1 ≠ utils_get_color 2 := by
  obtain ⟨-, news, h1, h2, h3, -, hdist⟩ :=
    matrix_rows_spec (MiniPlot.new "w") [(0 : ℚ), 1, 2]
      [[(1 : ℚ), 2, 3], [4, 5, 6]] 3 (by decide)
  refine ⟨news, h1, h2, ?_, ?_, by decide⟩
  · have h := h3 0 (by decide)
    rw [h]
    rfl
  · have h := h3 1 (by decide)
    rw [h]
    rfl
